import Mathlib

/-!
Shallow embedding of `agent.py` (pytest-file generator driven by LangChain +
Azure OpenAI) and proofs about the claims of its specification.

Text is modelled as `List Char`.  Python string primitives used by the source
(`str.splitlines`, `str.strip`, `str.startswith`, `sep.join`, `list.insert`,
`any`) are embedded below, faithful to CPython semantics on the character set
the program manipulates:
* `splitlines` splits on the universal line boundaries handled by CPython
  (`\n`, `\r`, `\r\n`, `\x0b`, `\x0c`, `\x1c`, `\x1d`, `\x1e`, `\x85`,
  `\u2028`, `\u2029`);
* `str.strip()` strips the ASCII whitespace characters
  (space, `\t`, `\n`, `\r`, `\x0b`, `\x0c`); the rare non-ASCII Unicode
  whitespace code points are not modelled.
-/

namespace Agent

/-- Conversion of a Lean string literal to the `List Char` text model. -/
def lit (s : String) : List Char := s.toList

/-- Whitespace test of Python `str.strip()` (ASCII part). -/
def pyIsSpace (c : Char) : Bool :=
  c = ' ' || c = '\t' || c = '\n' || c = '\r' || c = '\x0b' || c = '\x0c'

/-- Line-boundary characters recognised by Python `str.splitlines()`. -/
def isLineBreak (c : Char) : Bool :=
  c = '\n' || c = '\r' || c = '\x0b' || c = '\x0c' || c = '\x1c' || c = '\x1d' ||
    c = '\x1e' || c = '\x85' || c = '\u2028' || c = '\u2029'

/-- Helper of `splitlines`: prepend a character to the first line of an
already-split tail (starting a fresh line when there is none). -/
def consHead (c : Char) : List (List Char) → List (List Char)
  | [] => [[c]]
  | l :: ls => (c :: l) :: ls

/-- Python `str.splitlines()`: split at every line boundary, `\r\n` counting
as a single boundary; a trailing boundary produces no extra empty line. -/
def splitlines : List Char → List (List Char)
  | [] => []
  | [c] => if isLineBreak c then [[]] else [[c]]
  | c :: c2 :: rest =>
    if c = '\r' && c2 = '\n' then [] :: splitlines rest
    else if isLineBreak c then [] :: splitlines (c2 :: rest)
    else consHead c (splitlines (c2 :: rest))

/-- Python `sep.join(parts)`. -/
def joinSep (sep : List Char) : List (List Char) → List Char
  | [] => []
  | [l] => l
  | l :: ls => l ++ sep ++ joinSep sep ls

/-- Python `str.strip()`: drop leading and trailing whitespace. -/
def pyStrip (s : List Char) : List Char :=
  List.rdropWhile pyIsSpace (List.dropWhile pyIsSpace s)

/-- Record built by `extract_top_level_functions` for one function
(the Python source builds the dict with keys name, args, doc). -/
structure Sig where
  name : List Char
  args : List (List Char)
  doc : Option (List Char)
deriving DecidableEq

/-- Text `"import pytest"`: both the checked header prefix and the line the
guard inserts. -/
def pytestLine : List Char := lit ("import pytest")

/-- Guard check pattern `f"from {module_name} import"`. -/
def fromPat (module_name : List Char) : List Char :=
  lit ("from ") ++ module_name ++ lit (" import")

/-- Guard check pattern `f"import {module_name}"`. -/
def impPat (module_name : List Char) : List Char :=
  lit ("import ") ++ module_name

/-- Comma-joined function names, Python `', '.join([f['name'] for f in functions])`. -/
def joinedNames (functions : List Sig) : List Char :=
  joinSep (lit (", ")) (functions.map Sig.name)

/-- Import statement the guard inserts when no module import is found:
`f"from {m} import {names}" if functions else f"import {m}"`. -/
def import_stmt (module_name : List Char) (functions : List Sig) : List Char :=
  if functions.isEmpty then lit ("import ") ++ module_name
  else lit ("from ") ++ module_name ++ lit (" import ") ++ joinedNames functions

/-- Condition of the guard's second check:
`any(line.strip().startswith(f"from {m} import") or line.strip().startswith(f"import {m}") for line in lines)`. -/
def hasModuleImport (module_name : List Char) (lines : List (List Char)) : Bool :=
  lines.any fun line =>
    (fromPat module_name).isPrefixOf (pyStrip line) ||
      (impPat module_name).isPrefixOf (pyStrip line)

/-- First corrective step of `ensure_imports_and_header`: insert
`"import pytest"` at index 0 when the line list is empty or its first line
fails `strip().startswith("import pytest")`. -/
def withPytestHeader (lines : List (List Char)) : List (List Char) :=
  match lines with
  | [] => [pytestLine]
  | l0 :: rest =>
    if pytestLine.isPrefixOf (pyStrip l0) then l0 :: rest
    else pytestLine :: l0 :: rest

/-- Line list built by `ensure_imports_and_header` before the final join:
`generated_code.splitlines()`, the `"import pytest"` insert, then the insert
of `import_stmt` at index 1 when no line passes the module-import check.
(The Python `lines.insert(1, x)` acts on a list that is necessarily
non-empty at that point, so `insertIdx 1` agrees with it.) -/
def ensureLines (module_name generated_code : List Char) (functions : List Sig) :
    List (List Char) :=
  let lines := withPytestHeader (splitlines generated_code)
  if hasModuleImport module_name lines then lines
  else lines.insertIdx 1 (import_stmt module_name functions)

/-- Embedding of `ensure_imports_and_header`: the computed line list joined
with `"\n"`, plus a final `"\n"` (source: `return "\n".join(lines) + "\n"`). -/
def ensure_imports_and_header (module_name generated_code : List Char)
    (functions : List Sig) : List Char :=
  joinSep ['\n'] (ensureLines module_name generated_code functions) ++ ['\n']

/-- Python AST `arg` node: only the parameter name is used by the program. -/
structure PyArg where
  arg : List Char
deriving DecidableEq

/-- Python AST `arguments` node, restricted to the name lists; the extractor
reads only the `args` field (positional-or-keyword parameters). -/
structure PyArguments where
  posonlyargs : List PyArg
  args : List PyArg
  kwonlyargs : List PyArg
deriving DecidableEq

/-- Expression nodes, to the extent `ast.get_docstring` inspects them. -/
inductive PyExpr where
  | constantStr (s : List Char)
  | otherExpr

/-- Statement nodes of the parsed module, to the extent the extractor
distinguishes them: `ast.FunctionDef`, `ast.AsyncFunctionDef`, `ast.ClassDef`,
expression statements (for docstrings), anything else. -/
inductive PyStmt where
  | functionDef (name : List Char) (args : PyArguments) (body : List PyStmt)
  | asyncFunctionDef (name : List Char) (args : PyArguments) (body : List PyStmt)
  | classDef (name : List Char) (body : List PyStmt)
  | exprStmt (e : PyExpr)
  | otherStmt

/-- Embedding of `ast.get_docstring(node)`: the string constant standing first
in the body, if any.  (CPython additionally normalises indentation with
`inspect.cleandoc`; the claims never inspect docstring contents, so that
cleaning is not modelled.) -/
def get_docstring : List PyStmt → Option (List Char)
  | PyStmt.exprStmt (PyExpr.constantStr s) :: _ => some s
  | _ => none

/-- Embedding of `extract_top_level_functions`, taken at the parsed module
body (`tree.body`): the loop `for node in tree.body: if isinstance(node,
ast.FunctionDef): funcs.append({...})`.  Reading and parsing of the file are
the runtime's business; the pair `(funcs, src)` the Python function returns
is split between this definition and `RunWorld.module_code` below. -/
def extract_top_level_functions : List PyStmt → List Sig
  | [] => []
  | PyStmt.functionDef name args body :: rest =>
    ⟨name, args.args.map PyArg.arg, get_docstring body⟩ ::
      extract_top_level_functions rest
  | _ :: rest => extract_top_level_functions rest

/-- Spec-side characterisation for C5: is a statement a synchronous
top-level `def` (an `ast.FunctionDef` node)? -/
def isFunctionDef : PyStmt → Bool
  | PyStmt.functionDef _ _ _ => true
  | _ => false

/-- Spec-side characterisation for C5: the signature the spec expects the
extractor to produce for a statement (`none` for non-`FunctionDef`
statements). -/
def sigOfDef : PyStmt → Option Sig
  | PyStmt.functionDef name args body =>
    some ⟨name, args.args.map PyArg.arg, get_docstring body⟩
  | _ => none

/-- Text of `system_prompt` in `build_prompts` (concatenated literal). -/
def system_prompt_text : List Char :=
  lit ("Você é um assistente que produz arquivos de teste (pytest) para módulos Python. Retorne APENAS o conteúdo do arquivo de teste em Python (sem comentários, sem markdown, sem explicação). O primeiro caractere do arquivo deve começar com 'import pytest'.")

/-- Rendering of one signature inside `funcs_list_text`:
`f"- {f['name']}({', '.join(f['args'])})"`. -/
def sigLine (f : Sig) : List Char :=
  lit ("- ") ++ f.name ++ lit ("(") ++ joinSep (lit (", ")) f.args ++ lit (")")

/-- Value of `funcs_list_text` in `build_prompts`:
`"\n".join([f"- {f['name']}({', '.join(f['args'])})" for f in functions]) if functions else "(nenhuma função top-level encontrada)"`. -/
def funcs_list_text (functions : List Sig) : List Char :=
  if functions.isEmpty then lit ("(nenhuma função top-level encontrada)")
  else joinSep ['\n'] (functions.map sigLine)

/-- Part of the `human_prompt` f-string of `build_prompts` before the
`{funcs_list_text}` interpolation (without the leading newline of the
f-string; its text, including the trailing blanks after
`"{module_name}". ` and after `(sem explicações). `, is copied verbatim
from the source). -/
def human_pre (module_name : List Char) (functions : List Sig) : List Char :=
  lit ("Gere um arquivo pytest para o módulo \"") ++ module_name ++
    lit ("\". \nRegras obrigatórias:\n1) A primeira linha do arquivo deve ser: import pytest\n2) Inclua import dos simbolos testados: from ") ++
    module_name ++ lit (" import ") ++
    (if functions.isEmpty then lit ("*") else joinedNames functions) ++
    lit ("\n3) Para cada função top-level listada abaixo gere AO MENOS 2 testes:\n   - def test_<func>_success(): teste de comportamento típico/esperado\n   - def test_<func>_failure(): teste de caso limite ou exceção esperada (use pytest.raises quando apropriado)\n4) Use asserts claros (assert resultado == esperado) e evite chamadas de rede, tempo ou I/O.\n5) Saia apenas com código Python válido (sem explicações). \n\nMódulo (conteúdo):\n\nFunções a serem testadas:\n")

/-- Part of the `human_prompt` f-string after the `{funcs_list_text}`
interpolation, without the trailing newline of the f-string. -/
def human_post (module_name : List Char) : List Char :=
  lit ("\n\nGerar agora somente o conteúdo do arquivo test_") ++ module_name ++
    lit (".py")

/-- Interior of the `human_prompt` f-string, between its leading and
trailing newline. -/
def human_core (module_name : List Char) (functions : List Sig) : List Char :=
  human_pre module_name functions ++ funcs_list_text functions ++
    human_post module_name

/-- Full `human_prompt` f-string before the final `.strip()`. -/
def human_prompt_raw (module_name : List Char) (functions : List Sig) : List Char :=
  '\n' :: human_core module_name functions ++ ['\n']

/-- Embedding of `build_prompts`; `module_code` is a parameter of the Python
function but is not interpolated into either template.  The function returns
`(system_prompt.strip(), human_prompt.strip())`. -/
def build_prompts (module_name module_code : List Char) (functions : List Sig) :
    List Char × List Char :=
  (pyStrip system_prompt_text, pyStrip (human_prompt_raw module_name functions))

/-- Configuration passed to the `AzureChatOpenAI` constructor. -/
structure AzureChatConfig where
  azure_deployment : List Char
  api_version : List Char
  temperature : ℚ
  max_retries : ℕ
deriving DecidableEq

/-- Name of the required deployment environment variable. -/
def envDeployment : List Char := lit ("AZURE_OPENAI_DEPLOYMENT")

/-- Name of the optional API-version environment variable. -/
def envApiVersion : List Char := lit ("AZURE_OPENAI_API_VERSION")

/-- Default literal of `os.getenv("AZURE_OPENAI_API_VERSION", ...)`. -/
def defaultApiVersion : List Char := lit ("2023-06-01-preview")

/-- Message of the `RuntimeError` raised when the deployment is missing. -/
def configErrorMsg : List Char :=
  lit ("Defina AZURE_OPENAI_DEPLOYMENT no .env (nome do deployment).")

/-- Embedding of `call_azure_llm`.  The environment is the `getenv` map
(`none` = variable unset); the external `AzureChatOpenAI` client is the
`invoke` oracle, which receives exactly the configuration the source passes
to the constructor and the `[("system", ...), ("human", ...)]` message list
(`ai_msg.content` extraction is folded into the oracle's result).  Python's
`if not deployment` is true both when the variable is unset and when it is
the empty string. -/
def call_azure_llm (getenv : List Char → Option (List Char))
    (invoke : AzureChatConfig → List (List Char × List Char) → Except (List Char) (List Char))
    (system_prompt human_prompt : List Char) : Except (List Char) (List Char) :=
  match getenv envDeployment with
  | none => Except.error configErrorMsg
  | some deployment =>
    if deployment.isEmpty then Except.error configErrorMsg
    else
      let api_version := (getenv envApiVersion).getD defaultApiVersion
      let llm : AzureChatConfig :=
        { azure_deployment := deployment, api_version := api_version,
          temperature := 0, max_retries := 2 }
      invoke llm [(lit ("system"), system_prompt), (lit ("human"), human_prompt)]

/-- External state `main` runs against: existence of the input file, the
result of `ast.parse` on its contents, the contents themselves, the process
environment, and the remote model. -/
structure RunWorld where
  file_exists : Bool
  parse_result : Except (List Char) (List PyStmt)
  module_code : List Char
  getenv : List Char → Option (List Char)
  invoke : AzureChatConfig → List (List Char × List Char) → Except (List Char) (List Char)

/-- Embedding of `main` for an input path with directory `parent` and stem
`stem`: existence check, extraction, prompt building, model call, guard, then
the write of the guarded content to `test_<stem>.py` next to the source.
The single file write is modelled as the `ok` payload `(path, content)`
(performed by `write_test_file`); every error value is a Python exception
propagating before that write.  Argument parsing, `load_dotenv` and the
optional pytest subprocess are outside the spec's scope and are not
modelled. -/
def main (parent stem : List Char) (w : RunWorld) :
    Except (List Char) (List Char × List Char) :=
  if !w.file_exists then Except.error (lit ("Arquivo não encontrado")) else
  match w.parse_result with
  | Except.error e => Except.error e
  | Except.ok body =>
    let functions := extract_top_level_functions body
    let prompts := build_prompts stem w.module_code functions
    match call_azure_llm w.getenv w.invoke prompts.1 prompts.2 with
    | Except.error e => Except.error e
    | Except.ok generated =>
      Except.ok (parent ++ lit ("/test_") ++ stem ++ lit (".py"),
        ensure_imports_and_header stem generated functions)

theorem consHead_ne_nil (c : Char) (L : List (List Char)) : consHead c L ≠ [] := by
  cases L <;> simp [consHead]

theorem splitlines_cons_of_not_break (c : Char) (t : List Char)
    (hb : isLineBreak c = false) :
    splitlines (c :: t) = consHead c (splitlines t) := by
  cases t with
  | nil => simp [splitlines, hb, consHead]
  | cons c2 t2 =>
    have hr : c ≠ '\r' := by intro h; subst h; exact absurd hb (by decide)
    simp [splitlines, hb, hr]

theorem splitlines_cons_of_break (c : Char) (t : List Char)
    (hb : isLineBreak c = true) (h2 : ¬(c = '\r' ∧ t.head? = some '\n')) :
    splitlines (c :: t) = [] :: splitlines t := by
  cases t with
  | nil => simp [splitlines, hb]
  | cons c2 t2 =>
    have h3 : ¬(c = '\r' ∧ c2 = '\n') := fun h => h2 ⟨h.1, by simp [h.2]⟩
    rcases Decidable.em (c = '\r') with hr | hr
    · have h4 : c2 ≠ '\n' := fun h => h3 ⟨hr, h⟩
      subst hr
      simp [splitlines, hb, h4]
    · simp [splitlines, hb, hr]

theorem splitlines_nl (t : List Char) :
    splitlines ('\n' :: t) = [] :: splitlines t :=
  splitlines_cons_of_break '\n' t (by decide) (fun h => absurd h.1 (by decide))

theorem splitlines_ne_nil {s : List Char} (h : s ≠ []) : splitlines s ≠ [] := by
  match s with
  | [] => exact absurd rfl h
  | [c] =>
    simp only [splitlines]
    split <;> simp
  | c :: c2 :: t =>
    simp only [splitlines]
    split
    · simp
    · split
      · simp
      · exact consHead_ne_nil c _

theorem splitlines_no_break (s : List Char) :
    ∀ l ∈ splitlines s, ∀ c ∈ l, isLineBreak c = false := by
  induction s using splitlines.induct with
  | case1 => simp [splitlines]
  | case2 c hb => simp [splitlines, hb]
  | case3 c hb =>
    simp only [splitlines, if_neg hb]
    simpa using Bool.not_eq_true _ ▸ hb
  | case4 c c2 rest hcr ih =>
    simp only [splitlines, if_pos hcr]
    intro l hl
    rcases List.mem_cons.mp hl with h | h
    · subst h; simp
    · exact ih l h
  | case5 c c2 rest hcr hb ih =>
    simp only [splitlines, if_neg hcr, if_pos hb]
    intro l hl
    rcases List.mem_cons.mp hl with h | h
    · subst h; simp
    · exact ih l h
  | case6 c c2 rest hcr hb ih =>
    simp only [splitlines, if_neg hcr, if_neg hb]
    obtain ⟨l0, r, heq⟩ := List.exists_cons_of_ne_nil (splitlines_ne_nil
      (s := c2 :: rest) (by simp))
    rw [heq]
    intro l hl x hx
    rcases List.mem_cons.mp hl with h | h
    · subst h
      rcases List.mem_cons.mp hx with h | h
      · subst h; exact Bool.not_eq_true _ ▸ hb
      · exact ih l0 (heq ▸ List.mem_cons_self _ _) x h
    · exact ih l (heq ▸ List.mem_cons_of_mem _ h) x hx

theorem splitlines_append_nl {a : List Char} (ha : ∀ c ∈ a, isLineBreak c = false)
    (t : List Char) : splitlines (a ++ '\n' :: t) = a :: splitlines t := by
  induction a with
  | nil => simpa using splitlines_nl t
  | cons c a ih =>
    have hc : isLineBreak c = false := ha c (List.mem_cons_self _ _)
    rw [List.cons_append, splitlines_cons_of_not_break c _ hc,
      ih (fun x hx => ha x (List.mem_cons_of_mem _ hx))]
    rfl

theorem joinSep_cons_cons (sep : List Char) (a b : List Char)
    (ls : List (List Char)) :
    joinSep sep (a :: b :: ls) = a ++ sep ++ joinSep sep (b :: ls) := rfl

theorem joinNL_consHead (c : Char) {L : List (List Char)} (h : L ≠ []) :
    joinSep ['\n'] (consHead c L) = c :: joinSep ['\n'] L := by
  match L with
  | [l] => rfl
  | l :: l2 :: ls => rfl

theorem splitlines_joinNL {ls : List (List Char)} (h0 : ls ≠ [])
    (h : ∀ l ∈ ls, ∀ c ∈ l, isLineBreak c = false) :
    splitlines (joinSep ['\n'] ls ++ ['\n']) = ls := by
  induction ls with
  | nil => exact absurd rfl h0
  | cons a ls ih =>
    cases ls with
    | nil =>
      simpa [joinSep] using
        splitlines_append_nl (a := a) (fun c hc => h a (by simp) c hc) []
    | cons b ls2 =>
      rw [joinSep_cons_cons]
      have hre : (a ++ ['\n'] ++ joinSep ['\n'] (b :: ls2)) ++ ['\n'] =
          a ++ '\n' :: (joinSep ['\n'] (b :: ls2) ++ ['\n']) := by simp
      rw [hre, splitlines_append_nl (fun c hc => h a (by simp) c hc),
        ih (by simp) (fun l hl x hx => h l (List.mem_cons_of_mem _ hl) x hx)]

theorem joinNL_splitlines {s : List Char}
    (h1 : ∀ c ∈ s, isLineBreak c = true → c = '\n')
    (h2 : s.getLast? ≠ some '\n') (h3 : s ≠ []) :
    joinSep ['\n'] (splitlines s) = s := by
  induction s with
  | nil => exact absurd rfl h3
  | cons c t ih =>
    by_cases hb : isLineBreak c = true
    · have hcn : c = '\n' := h1 c (by simp) hb
      subst hcn
      cases t with
      | nil => simp at h2
      | cons c2 t2 =>
        rw [splitlines_nl]
        obtain ⟨l0, r, heq⟩ := List.exists_cons_of_ne_nil (splitlines_ne_nil
          (s := c2 :: t2) (by simp))
        calc joinSep ['\n'] ([] :: splitlines (c2 :: t2))
            = '\n' :: joinSep ['\n'] (splitlines (c2 :: t2)) := by
              rw [heq, joinSep_cons_cons]; simp
          _ = '\n' :: (c2 :: t2) := by
              rw [ih (fun x hx hbx => h1 x (List.mem_cons_of_mem _ hx) hbx)
                (by simpa using h2) (by simp)]
    · rw [splitlines_cons_of_not_break c t (Bool.not_eq_true _ ▸ hb)]
      cases t with
      | nil => rfl
      | cons c2 t2 =>
        rw [joinNL_consHead c (splitlines_ne_nil (s := c2 :: t2) (by simp)),
          ih (fun x hx hbx => h1 x (List.mem_cons_of_mem _ hx) hbx)
            (by simpa using h2) (by simp)]

theorem joinNL_splitlines_trailing {s : List Char}
    (h1 : ∀ c ∈ s, isLineBreak c = true → c = '\n')
    (h2 : s.getLast? = some '\n') :
    joinSep ['\n'] (splitlines s) ++ ['\n'] = s := by
  induction s with
  | nil => simp at h2
  | cons c t ih =>
    by_cases hb : isLineBreak c = true
    · have hcn : c = '\n' := h1 c (by simp) hb
      subst hcn
      cases t with
      | nil => decide
      | cons c2 t2 =>
        rw [splitlines_nl]
        obtain ⟨l0, r, heq⟩ := List.exists_cons_of_ne_nil (splitlines_ne_nil
          (s := c2 :: t2) (by simp))
        calc joinSep ['\n'] ([] :: splitlines (c2 :: t2)) ++ ['\n']
            = '\n' :: (joinSep ['\n'] (splitlines (c2 :: t2)) ++ ['\n']) := by
              rw [heq, joinSep_cons_cons]; simp
          _ = '\n' :: (c2 :: t2) := by
              rw [ih (fun x hx hbx => h1 x (List.mem_cons_of_mem _ hx) hbx)
                (by simpa using h2)]
    · cases t with
      | nil =>
        have : c = '\n' := by simpa using h2
        subst this
        exact absurd (by decide) hb
      | cons c2 t2 =>
        rw [splitlines_cons_of_not_break c _ (Bool.not_eq_true _ ▸ hb),
          joinNL_consHead c (splitlines_ne_nil (s := c2 :: t2) (by simp)),
          List.cons_append,
          ih (fun x hx hbx => h1 x (List.mem_cons_of_mem _ hx) hbx)
            (by simpa using h2)]

theorem rdropWhile_append_of_ne_nil (p : Char → Bool) (a b : List Char)
    (h : List.rdropWhile p b ≠ []) :
    List.rdropWhile p (a ++ b) = a ++ List.rdropWhile p b := by
  have hb : List.dropWhile p b.reverse ≠ [] := by
    intro hemp
    apply h
    unfold List.rdropWhile
    rw [hemp]
    rfl
  unfold List.rdropWhile
  rw [List.reverse_append, List.dropWhile_append, if_neg (by simpa using hb)]
  simp [List.rdropWhile]

theorem rdropWhile_append_of_nil (p : Char → Bool) (a b : List Char)
    (h : List.rdropWhile p b = []) :
    List.rdropWhile p (a ++ b) = List.rdropWhile p a := by
  have hb : List.dropWhile p b.reverse = [] := by
    have h2 := congrArg List.reverse h
    simpa [List.rdropWhile] using h2
  unfold List.rdropWhile
  rw [List.reverse_append, List.dropWhile_append, if_pos (by simp [hb])]

theorem prefix_rdropWhile_of_last (p : Char → Bool) {pat l : List Char}
    (hne : pat ≠ []) (hlast : p (pat.getLast hne) = false) (h : pat <+: l) :
    pat <+: List.rdropWhile p l := by
  obtain ⟨t, rfl⟩ := h
  rcases Decidable.em (List.rdropWhile p t = []) with ht | ht
  · rw [rdropWhile_append_of_nil p _ _ ht,
      List.rdropWhile_eq_self_iff.mpr (fun hl => by simp [hlast])]
  · rw [rdropWhile_append_of_ne_nil p _ _ ht]
    exact ⟨_, rfl⟩

theorem dropWhile_eq_self_of_head {p : Char → Bool} {l : List Char} {c : Char}
    (h : l.head? = some c) (hc : p c = false) : List.dropWhile p l = l := by
  cases l with
  | nil => simp at h
  | cons a t =>
    obtain rfl : a = c := by simpa using h
    simp [List.dropWhile_cons, hc]

theorem head?_append_left {α : Type} {a : List α} (b : List α) {c : α}
    (h : a.head? = some c) : (a ++ b).head? = some c := by
  cases a with
  | nil => simp at h
  | cons x t => simpa using h

theorem getLast?_append_right {α : Type} (a : List α) {b : List α} {c : α}
    (h : b.getLast? = some c) : (a ++ b).getLast? = some c := by
  rw [List.getLast?_append, h]
  rfl

theorem prefix_pyStrip {pat : List Char} (t : List Char) {c0 cN : Char}
    (h0 : pat.head? = some c0) (hc0 : pyIsSpace c0 = false)
    (hN : pat.getLast? = some cN) (hcN : pyIsSpace cN = false) :
    pat <+: pyStrip (pat ++ t) := by
  have hne : pat ≠ [] := by intro h; subst h; simp at h0
  unfold pyStrip
  rw [dropWhile_eq_self_of_head (head?_append_left t h0) hc0]
  refine prefix_rdropWhile_of_last pyIsSpace hne ?_ ⟨t, rfl⟩
  have h3 : pat.getLast hne = cN := by
    have h2 := List.getLast?_eq_getLast pat hne
    rw [h2] at hN
    exact Option.some_inj.mp hN
  rw [h3]
  exact hcN

theorem insertIdx_one {α : Type} (x l0 : α) (r : List α) :
    (l0 :: r).insertIdx 1 x = l0 :: x :: r := by
  simp [List.insertIdx_succ_cons, List.insertIdx_zero]

theorem withPytestHeader_ne_nil (L : List (List Char)) : withPytestHeader L ≠ [] := by
  cases L with
  | nil => simp [withPytestHeader]
  | cons l0 r =>
    simp only [withPytestHeader]
    split <;> simp

theorem withPytestHeader_head (L : List (List Char)) :
    ∃ l0 r, withPytestHeader L = l0 :: r ∧ pytestLine <+: pyStrip l0 := by
  cases L with
  | nil => exact ⟨pytestLine, [], rfl, by decide⟩
  | cons a r =>
    simp only [withPytestHeader]
    split
    · next h => exact ⟨a, r, rfl, List.isPrefixOf_iff_prefix.mp h⟩
    · next h => exact ⟨pytestLine, a :: r, rfl, by decide⟩

theorem withPytestHeader_sublist (L : List (List Char)) :
    List.Sublist L (withPytestHeader L) := by
  cases L with
  | nil => simp [withPytestHeader]
  | cons a r =>
    simp only [withPytestHeader]
    split
    · exact List.Sublist.refl _
    · exact List.Sublist.cons _ (List.Sublist.refl _)

theorem ensureLines_eq_or (m g : List Char) (fns : List Sig) :
    (hasModuleImport m (withPytestHeader (splitlines g)) = true ∧
      ensureLines m g fns = withPytestHeader (splitlines g)) ∨
    (hasModuleImport m (withPytestHeader (splitlines g)) = false ∧
      ensureLines m g fns =
        (withPytestHeader (splitlines g)).insertIdx 1 (import_stmt m fns)) := by
  rcases Bool.eq_false_or_eq_true
      (hasModuleImport m (withPytestHeader (splitlines g))) with h | h
  · left
    exact ⟨h, by unfold ensureLines; simp [h]⟩
  · right
    exact ⟨h, by unfold ensureLines; simp [h]⟩

theorem ensureLines_ne_nil (m g : List Char) (fns : List Sig) :
    ensureLines m g fns ≠ [] := by
  rcases ensureLines_eq_or m g fns with ⟨_, he⟩ | ⟨_, he⟩
  · rw [he]
    exact withPytestHeader_ne_nil _
  · rw [he]
    obtain ⟨l0, r, heq⟩ :=
      List.exists_cons_of_ne_nil (withPytestHeader_ne_nil (splitlines g))
    rw [heq, insertIdx_one]
    simp

theorem ensureLines_head (m g : List Char) (fns : List Sig) :
    ∃ l0 r, ensureLines m g fns = l0 :: r ∧ pytestLine <+: pyStrip l0 := by
  obtain ⟨l0, r, heq, hpre⟩ := withPytestHeader_head (splitlines g)
  rcases ensureLines_eq_or m g fns with ⟨_, he⟩ | ⟨_, he⟩
  · exact ⟨l0, r, he.trans heq, hpre⟩
  · refine ⟨l0, import_stmt m fns :: r, ?_, hpre⟩
    rw [he, heq, insertIdx_one]

theorem mem_of_joinSep {c : Char} {sep : List Char} {parts : List (List Char)}
    (h : c ∈ joinSep sep parts) : c ∈ sep ∨ ∃ p ∈ parts, c ∈ p := by
  induction parts with
  | nil => simp [joinSep] at h
  | cons a ps ih =>
    cases ps with
    | nil => exact Or.inr ⟨a, by simp, by simpa [joinSep] using h⟩
    | cons b ps2 =>
      rw [joinSep_cons_cons] at h
      rcases List.mem_append.mp h with h1 | h2
      · rcases List.mem_append.mp h1 with ha | hs
        · exact Or.inr ⟨a, by simp, ha⟩
        · exact Or.inl hs
      · rcases ih h2 with h3 | ⟨p, hp, hc2⟩
        · exact Or.inl h3
        · exact Or.inr ⟨p, List.mem_cons_of_mem _ hp, hc2⟩

theorem import_stmt_no_break (m : List Char) (fns : List Sig)
    (hm : ∀ c ∈ m, isLineBreak c = false)
    (hf : ∀ f ∈ fns, ∀ c ∈ f.name, isLineBreak c = false) :
    ∀ c ∈ import_stmt m fns, isLineBreak c = false := by
  intro c hc
  unfold import_stmt at hc
  split at hc
  · rcases List.mem_append.mp hc with h | h
    · exact (by decide : ∀ c ∈ lit ("import "), isLineBreak c = false) c h
    · exact hm c h
  · rcases List.mem_append.mp hc with h | h
    · rcases List.mem_append.mp h with h | h
      · rcases List.mem_append.mp h with h | h
        · exact (by decide : ∀ c ∈ lit ("from "), isLineBreak c = false) c h
        · exact hm c h
      · exact (by decide : ∀ c ∈ lit (" import "), isLineBreak c = false) c h
    · unfold joinedNames at h
      rcases mem_of_joinSep h with h | ⟨p, hp, hcp⟩
      · exact (by decide : ∀ c ∈ lit (", "), isLineBreak c = false) c h
      · obtain ⟨f, hf2, rfl⟩ := List.mem_map.mp hp
        exact hf f hf2 c hcp

theorem withPytestHeader_no_break (g : List Char) :
    ∀ l ∈ withPytestHeader (splitlines g), ∀ c ∈ l, isLineBreak c = false := by
  intro l hl
  cases hsplit : splitlines g with
  | nil =>
    rw [hsplit] at hl
    simp only [withPytestHeader] at hl
    rcases List.mem_cons.mp hl with h | h
    · subst h
      exact (by decide : ∀ c ∈ pytestLine, isLineBreak c = false)
    · simp at h
  | cons a r =>
    rw [hsplit] at hl
    simp only [withPytestHeader] at hl
    split at hl
    · exact splitlines_no_break g l (hsplit ▸ hl)
    · rcases List.mem_cons.mp hl with h | h
      · subst h
        exact (by decide : ∀ c ∈ pytestLine, isLineBreak c = false)
      · exact splitlines_no_break g l (hsplit ▸ h)

theorem ensureLines_no_break (m g : List Char) (fns : List Sig)
    (hm : ∀ c ∈ m, isLineBreak c = false)
    (hf : ∀ f ∈ fns, ∀ c ∈ f.name, isLineBreak c = false) :
    ∀ l ∈ ensureLines m g fns, ∀ c ∈ l, isLineBreak c = false := by
  rcases ensureLines_eq_or m g fns with ⟨_, he⟩ | ⟨_, he⟩
  · rw [he]
    exact withPytestHeader_no_break g
  · rw [he]
    obtain ⟨l0, r, heq⟩ :=
      List.exists_cons_of_ne_nil (withPytestHeader_ne_nil (splitlines g))
    rw [heq, insertIdx_one]
    intro l hl
    rcases List.mem_cons.mp hl with h | h
    · subst h
      exact withPytestHeader_no_break g l (by rw [heq]; exact List.mem_cons_self _ _)
    · rcases List.mem_cons.mp h with h2 | h2
      · subst h2
        exact import_stmt_no_break m fns hm hf
      · exact withPytestHeader_no_break g l (by rw [heq]; exact List.mem_cons_of_mem _ h2)

theorem splitlines_ensure (m g : List Char) (fns : List Sig)
    (hm : ∀ c ∈ m, isLineBreak c = false)
    (hf : ∀ f ∈ fns, ∀ c ∈ f.name, isLineBreak c = false) :
    splitlines (ensure_imports_and_header m g fns) = ensureLines m g fns := by
  unfold ensure_imports_and_header
  exact splitlines_joinNL (ensureLines_ne_nil m g fns) (ensureLines_no_break m g fns hm hf)

theorem fromPat_head (m : List Char) : (fromPat m).head? = some 'f' := by
  unfold fromPat
  exact head?_append_left _ (head?_append_left _ (by decide))

theorem fromPat_getLast (m : List Char) : (fromPat m).getLast? = some 't' := by
  unfold fromPat
  exact getLast?_append_right _ (by decide)

theorem impPat_head (m : List Char) : (impPat m).head? = some 'i' := by
  unfold impPat
  exact head?_append_left _ (by decide)

theorem impPat_getLast (m : List Char) (c : Char) (h : m.getLast? = some c) :
    (impPat m).getLast? = some c := by
  unfold impPat
  exact getLast?_append_right _ h

theorem import_stmt_empty (m : List Char) : import_stmt m [] = impPat m := rfl

theorem import_stmt_cons (m : List Char) (f : Sig) (fns : List Sig) :
    import_stmt m (f :: fns) = fromPat m ++ (' ' :: joinedNames (f :: fns)) := by
  unfold import_stmt fromPat
  rw [if_neg (by simp)]
  rw [show lit (" import ") = lit (" import") ++ [' '] from by decide]
  simp [List.append_assoc]

theorem import_stmt_strip (m : List Char) (fns : List Sig)
    (hm1 : fns = [] → m ≠ [])
    (hm2 : fns = [] → List.rdropWhile pyIsSpace m = m) :
    fromPat m <+: pyStrip (import_stmt m fns) ∨
      impPat m <+: pyStrip (import_stmt m fns) := by
  cases fns with
  | nil =>
    right
    rw [import_stmt_empty]
    have hne : m ≠ [] := hm1 rfl
    have hlast : pyIsSpace (m.getLast hne) = false :=
      Bool.eq_false_iff.mpr (List.rdropWhile_eq_self_iff.mp (hm2 rfl) hne)
    have hc : m.getLast? = some (m.getLast hne) := List.getLast?_eq_getLast m hne
    have h := prefix_pyStrip [] (impPat_head m) (by decide)
      (impPat_getLast m _ hc) hlast
    simpa using h
  | cons f fns2 =>
    left
    rw [import_stmt_cons]
    exact prefix_pyStrip _ (fromPat_head m) (by decide) (fromPat_getLast m) (by decide)

theorem ensureLines_has_import (m g : List Char) (fns : List Sig)
    (hm1 : fns = [] → m ≠ [])
    (hm2 : fns = [] → List.rdropWhile pyIsSpace m = m) :
    ∃ l ∈ ensureLines m g fns, fromPat m <+: pyStrip l ∨ impPat m <+: pyStrip l := by
  rcases ensureLines_eq_or m g fns with ⟨hT, he⟩ | ⟨hF, he⟩
  · rw [he]
    unfold hasModuleImport at hT
    obtain ⟨l, hl, hb⟩ := List.any_eq_true.mp hT
    refine ⟨l, hl, ?_⟩
    have hb2 : (fromPat m).isPrefixOf (pyStrip l) = true ∨
        (impPat m).isPrefixOf (pyStrip l) = true := by simpa using hb
    rcases hb2 with h | h
    · exact Or.inl (List.isPrefixOf_iff_prefix.mp h)
    · exact Or.inr (List.isPrefixOf_iff_prefix.mp h)
  · rw [he]
    obtain ⟨l0, r, heq⟩ :=
      List.exists_cons_of_ne_nil (withPytestHeader_ne_nil (splitlines g))
    rw [heq, insertIdx_one]
    exact ⟨import_stmt m fns, by simp, import_stmt_strip m fns hm1 hm2⟩

theorem withPytestHeader_of_pass {L : List (List Char)} {l0 : List Char}
    {r : List (List Char)} (heq : L = l0 :: r)
    (h : pytestLine.isPrefixOf (pyStrip l0) = true) :
    withPytestHeader L = L := by
  subst heq
  simp [withPytestHeader, h]

theorem ensure_of_conformant (m g : List Char) (fns : List Sig)
    (hc1 : ∃ l0 r, splitlines g = l0 :: r ∧
      pytestLine.isPrefixOf (pyStrip l0) = true)
    (hc2 : hasModuleImport m (splitlines g) = true) :
    ensure_imports_and_header m g fns = joinSep ['\n'] (splitlines g) ++ ['\n'] := by
  obtain ⟨l0, r, heq, hpass⟩ := hc1
  have hid : withPytestHeader (splitlines g) = splitlines g :=
    withPytestHeader_of_pass heq hpass
  unfold ensure_imports_and_header
  rcases ensureLines_eq_or m g fns with ⟨hT, he⟩ | ⟨hF, he⟩
  · rw [he, hid]
  · rw [hid] at hF
    rw [hc2] at hF
    simp at hF

/-- C1 (amended).  For every input text the guarded result's first line
starts with `import pytest` after whitespace-stripping (not necessarily
exactly), and some line starts, after whitespace-stripping, with
`from <module> import` or `import <module>`; the module name and signature
names are assumed free of line-break characters, and — when the signature
list is empty — the module name must be non-empty without trailing
whitespace. -/
theorem C1_guard_output (m g : List Char) (fns : List Sig)
    (hm : ∀ c ∈ m, isLineBreak c = false)
    (hf : ∀ f ∈ fns, ∀ c ∈ f.name, isLineBreak c = false)
    (hm1 : fns = [] → m ≠ [])
    (hm2 : fns = [] → List.rdropWhile pyIsSpace m = m) :
    (∃ l0 r, splitlines (ensure_imports_and_header m g fns) = l0 :: r ∧
      pytestLine <+: pyStrip l0) ∧
    (∃ l ∈ splitlines (ensure_imports_and_header m g fns),
      fromPat m <+: pyStrip l ∨ impPat m <+: pyStrip l) := by
  rw [splitlines_ensure m g fns hm hf]
  exact ⟨ensureLines_head m g fns, ensureLines_has_import m g fns hm1 hm2⟩

/-- Witness for `C1_guard_output` at a concrete markdown-style input. -/
theorem C1_guard_output_witness :
    (∃ l0 r, splitlines (ensure_imports_and_header (lit ("mod"))
        (lit ("```python\nprint(1)\n```")) []) = l0 :: r ∧
      pytestLine <+: pyStrip l0) ∧
    (∃ l ∈ splitlines (ensure_imports_and_header (lit ("mod"))
        (lit ("```python\nprint(1)\n```")) []),
      fromPat (lit ("mod")) <+: pyStrip l ∨ impPat (lit ("mod")) <+: pyStrip l) :=
  C1_guard_output (lit ("mod")) (lit ("```python\nprint(1)\n```")) []
    (by decide) (by decide) (fun _ => by decide) (fun _ => by decide)

/-- Counterexample to C1 as stated: on the input `"import pytesting"` the
guard inserts nothing (the check is only a `strip().startswith`), so the
result's first line is `import pytesting`, not exactly `import pytest`. -/
theorem C1_counterexample :
    (splitlines (ensure_imports_and_header (lit ("mod"))
        (lit ("import pytesting")) [])).head? = some (lit ("import pytesting")) ∧
    some (lit ("import pytesting")) ≠ some (lit ("import pytest")) := by
  constructor
  · decide
  · decide

/-- C9.  The guard's result is always the joined line list with exactly one
`"\n"` appended, and guarding already-conformant content (both guard checks
pass) that uses `\n` line separators and lacks a trailing newline returns
the content with `"\n"` appended — in particular not byte-identically. -/
theorem C9_trailing_newline (m g : List Char) (fns : List Sig) :
    ensure_imports_and_header m g fns =
      joinSep ['\n'] (ensureLines m g fns) ++ ['\n'] ∧
    ((∃ l0 r, splitlines g = l0 :: r ∧
        pytestLine.isPrefixOf (pyStrip l0) = true) →
      hasModuleImport m (splitlines g) = true →
      (∀ c ∈ g, isLineBreak c = true → c = '\n') →
      g.getLast? ≠ some '\n' → g ≠ [] →
      ensure_imports_and_header m g fns = g ++ ['\n'] ∧
        ensure_imports_and_header m g fns ≠ g) := by
  refine ⟨rfl, fun hc1 hc2 hg1 hg2 hg3 => ?_⟩
  have h1 := ensure_of_conformant m g fns hc1 hc2
  rw [joinNL_splitlines hg1 hg2 hg3] at h1
  refine ⟨h1, ?_⟩
  rw [h1]
  intro he
  have h2 := congrArg List.length he
  simp at h2

/-- Witness for `C9_trailing_newline` at a concrete conformant input with no
trailing newline. -/
theorem C9_trailing_newline_witness :
    ensure_imports_and_header (lit ("mod")) (lit ("import pytest\nimport mod")) [] =
      lit ("import pytest\nimport mod") ++ ['\n'] ∧
    ensure_imports_and_header (lit ("mod")) (lit ("import pytest\nimport mod")) [] ≠
      lit ("import pytest\nimport mod") :=
  (C9_trailing_newline (lit ("mod")) (lit ("import pytest\nimport mod")) []).2
    ⟨lit ("import pytest"), [lit ("import mod")], by decide, by decide⟩
    (by decide) (by decide) (by decide) (by decide)

/-- C2 (amended).  For a module name that is non-empty, has no trailing
whitespace and no line-break characters (and signature names free of line
breaks): guarding already-conformant content — first line starting literally
with `import pytest`, some line starting literally with the module-import
pattern — returns it byte-identically provided it uses `\n` separators and
ends with a trailing newline; and the guard is idempotent,
`guard (guard x) = guard x`, for every input. -/
theorem C2_idempotent (m g : List Char) (fns : List Sig)
    (hm1 : m ≠ []) (hm2 : List.rdropWhile pyIsSpace m = m)
    (hmb : ∀ c ∈ m, isLineBreak c = false)
    (hfb : ∀ f ∈ fns, ∀ c ∈ f.name, isLineBreak c = false) :
    ((∃ l0 r, splitlines g = l0 :: r ∧ pytestLine <+: l0) →
     (∃ l ∈ splitlines g, fromPat m <+: l ∨ impPat m <+: l) →
     (∀ c ∈ g, isLineBreak c = true → c = '\n') →
     g.getLast? = some '\n' →
     ensure_imports_and_header m g fns = g) ∧
    ensure_imports_and_header m (ensure_imports_and_header m g fns) fns =
      ensure_imports_and_header m g fns := by
  constructor
  · intro hc1 hc2 hg1 hg2
    obtain ⟨l0, r, heq, hpre⟩ := hc1
    have hpass : pytestLine.isPrefixOf (pyStrip l0) = true := by
      apply List.isPrefixOf_iff_prefix.mpr
      obtain ⟨t, rfl⟩ := hpre
      exact @prefix_pyStrip pytestLine t 'i' 't' (by decide) (by decide)
        (by decide) (by decide)
    have hlast : pyIsSpace (m.getLast hm1) = false :=
      Bool.eq_false_iff.mpr (List.rdropWhile_eq_self_iff.mp hm2 hm1)
    have hcL : m.getLast? = some (m.getLast hm1) := List.getLast?_eq_getLast m hm1
    have hc2' : hasModuleImport m (splitlines g) = true := by
      obtain ⟨l, hl, hor⟩ := hc2
      unfold hasModuleImport
      apply List.any_eq_true.mpr
      refine ⟨l, hl, ?_⟩
      rcases hor with h | h
      · obtain ⟨t, rfl⟩ := h
        have h2 := prefix_pyStrip t (fromPat_head m) (by decide)
          (fromPat_getLast m) (by decide)
        simp [List.isPrefixOf_iff_prefix.mpr h2]
      · obtain ⟨t, rfl⟩ := h
        have h2 := prefix_pyStrip t (impPat_head m) (by decide)
          (impPat_getLast m _ hcL) hlast
        simp [List.isPrefixOf_iff_prefix.mpr h2]
    have h1 := ensure_of_conformant m g fns ⟨l0, r, heq, hpass⟩ hc2'
    rw [joinNL_splitlines_trailing hg1 hg2] at h1
    exact h1
  · have hsplitE : splitlines (ensure_imports_and_header m g fns) =
        ensureLines m g fns := splitlines_ensure m g fns hmb hfb
    obtain ⟨l0, r, heqL, hpre0⟩ := ensureLines_head m g fns
    have hc1 : ∃ l0 r, splitlines (ensure_imports_and_header m g fns) = l0 :: r ∧
        pytestLine.isPrefixOf (pyStrip l0) = true :=
      ⟨l0, r, by rw [hsplitE, heqL], List.isPrefixOf_iff_prefix.mpr hpre0⟩
    have hc2 : hasModuleImport m (splitlines (ensure_imports_and_header m g fns)) =
        true := by
      obtain ⟨l, hl, hor⟩ := ensureLines_has_import m g fns
        (fun _ => hm1) (fun _ => hm2)
      rw [hsplitE]
      unfold hasModuleImport
      apply List.any_eq_true.mpr
      refine ⟨l, hl, ?_⟩
      rcases hor with h | h <;> simp [List.isPrefixOf_iff_prefix.mpr h]
    have h1 := ensure_of_conformant m (ensure_imports_and_header m g fns) fns hc1 hc2
    rw [hsplitE] at h1
    exact h1

/-- Witness for `C2_idempotent` at a concrete module name and input. -/
theorem C2_idempotent_witness :
    ((∃ l0 r, splitlines (lit ("print(1)")) = l0 :: r ∧ pytestLine <+: l0) →
     (∃ l ∈ splitlines (lit ("print(1)")),
       fromPat (lit ("mod")) <+: l ∨ impPat (lit ("mod")) <+: l) →
     (∀ c ∈ lit ("print(1)"), isLineBreak c = true → c = '\n') →
     (lit ("print(1)")).getLast? = some '\n' →
     ensure_imports_and_header (lit ("mod")) (lit ("print(1)")) [] = lit ("print(1)")) ∧
    ensure_imports_and_header (lit ("mod"))
        (ensure_imports_and_header (lit ("mod")) (lit ("print(1)")) []) [] =
      ensure_imports_and_header (lit ("mod")) (lit ("print(1)")) [] :=
  C2_idempotent (lit ("mod")) (lit ("print(1)")) []
    (by decide) (by decide) (by decide) (by decide)

/-- Counterexample to C2 as stated: the input below is conformant (first line
starts with `import pytest`, second line starts with `import mod`) but has no
trailing newline, and the guard appends one, so the result is not
byte-identical to the input. -/
theorem C2_counterexample :
    splitlines (lit ("import pytest\nimport mod")) =
      [lit ("import pytest"), lit ("import mod")] ∧
    pytestLine <+: lit ("import pytest") ∧
    impPat (lit ("mod")) <+: lit ("import mod") ∧
    ensure_imports_and_header (lit ("mod")) (lit ("import pytest\nimport mod")) [] ≠
      lit ("import pytest\nimport mod") :=
  ⟨by decide, by decide, by decide, by decide⟩

/-- C3.  The guard never removes or rewrites lines: the line sequence of the
input is a sublist of the line sequence of the output, and the output's line
list is the input's with at most the `import pytest` line and/or one
module-import statement inserted (module name and signature names assumed
free of line-break characters). -/
theorem C3_frame (m g : List Char) (fns : List Sig)
    (hm : ∀ c ∈ m, isLineBreak c = false)
    (hf : ∀ f ∈ fns, ∀ c ∈ f.name, isLineBreak c = false) :
    List.Sublist (splitlines g) (splitlines (ensure_imports_and_header m g fns)) ∧
    (splitlines (ensure_imports_and_header m g fns) = splitlines g ∨
     splitlines (ensure_imports_and_header m g fns) = pytestLine :: splitlines g ∨
     splitlines (ensure_imports_and_header m g fns) =
       (splitlines g).insertIdx 1 (import_stmt m fns) ∨
     splitlines (ensure_imports_and_header m g fns) =
       pytestLine :: import_stmt m fns :: splitlines g) := by
  rw [splitlines_ensure m g fns hm hf]
  rcases ensureLines_eq_or m g fns with ⟨hT, he⟩ | ⟨hF, he⟩
  · rw [he]
    refine ⟨withPytestHeader_sublist _, ?_⟩
    cases hsp : splitlines g with
    | nil =>
      right; left
      simp [withPytestHeader]
    | cons a r =>
      by_cases hp : pytestLine.isPrefixOf (pyStrip a) = true
      · left
        simp [withPytestHeader, hp]
      · right; left
        simp [withPytestHeader, hp]
  · rw [he]
    cases hsp : splitlines g with
    | nil =>
      constructor
      · simp
      · right; right; right
        simp [withPytestHeader, insertIdx_one]
    | cons a r =>
      by_cases hp : pytestLine.isPrefixOf (pyStrip a) = true
      · have hw : withPytestHeader (a :: r) = a :: r := by
          simp [withPytestHeader, hp]
        rw [hw, insertIdx_one]
        constructor
        · exact List.Sublist.cons₂ a (List.Sublist.cons _ (List.Sublist.refl r))
        · right; right; left
          rfl
      · have hw : withPytestHeader (a :: r) = pytestLine :: a :: r := by
          simp [withPytestHeader, hp]
        rw [hw, insertIdx_one]
        constructor
        · exact List.Sublist.cons _ (List.Sublist.cons _ (List.Sublist.refl _))
        · right; right; right
          rfl

/-- Witness for `C3_frame` at a concrete multi-line input. -/
theorem C3_frame_witness :
    List.Sublist (splitlines (lit ("a = 1\nb = 2")))
      (splitlines (ensure_imports_and_header (lit ("mod")) (lit ("a = 1\nb = 2")) [])) ∧
    (splitlines (ensure_imports_and_header (lit ("mod")) (lit ("a = 1\nb = 2")) []) =
       splitlines (lit ("a = 1\nb = 2")) ∨
     splitlines (ensure_imports_and_header (lit ("mod")) (lit ("a = 1\nb = 2")) []) =
       pytestLine :: splitlines (lit ("a = 1\nb = 2")) ∨
     splitlines (ensure_imports_and_header (lit ("mod")) (lit ("a = 1\nb = 2")) []) =
       (splitlines (lit ("a = 1\nb = 2"))).insertIdx 1
         (import_stmt (lit ("mod")) []) ∨
     splitlines (ensure_imports_and_header (lit ("mod")) (lit ("a = 1\nb = 2")) []) =
       pytestLine :: import_stmt (lit ("mod")) [] :: splitlines (lit ("a = 1\nb = 2"))) :=
  C3_frame (lit ("mod")) (lit ("a = 1\nb = 2")) [] (by decide) (by decide)

theorem fromPat_not_pytest (m : List Char) : ¬(fromPat m <+: pytestLine) := by
  intro h
  have h2 : pytestLine.head? = some 'f' := by
    obtain ⟨t, ht⟩ := h
    rw [← ht]
    exact head?_append_left _ (fromPat_head m)
  exact absurd h2 (by decide)

/-- C4 (amended).  If no line of the input starts, after
whitespace-stripping, with `from <m> import` or `import <m>` — and
`import <m>` is not itself a stripped prefix of the `import pytest` line the
guard may insert — then the guard inserts the import statement
(`from <m> import <names>` for a non-empty signature list, else
`import <m>`) as the second line of the output. -/
theorem C4_insert_import (m g : List Char) (fns : List Sig)
    (hm : ∀ c ∈ m, isLineBreak c = false)
    (hf : ∀ f ∈ fns, ∀ c ∈ f.name, isLineBreak c = false)
    (hno : ∀ l ∈ splitlines g, ¬(fromPat m <+: pyStrip l) ∧ ¬(impPat m <+: pyStrip l))
    (hpy : ¬(impPat m <+: pytestLine)) :
    (splitlines (ensure_imports_and_header m g fns))[1]? =
      some (import_stmt m fns) := by
  rw [splitlines_ensure m g fns hm hf]
  have hstrip : pyStrip pytestLine = pytestLine := by decide
  have hF : hasModuleImport m (withPytestHeader (splitlines g)) = false := by
    unfold hasModuleImport
    apply List.any_eq_false.mpr
    intro l hl
    have hl2 : l ∈ splitlines g ∨ l = pytestLine := by
      cases hsp : splitlines g with
      | nil =>
        rw [hsp] at hl
        simp only [withPytestHeader] at hl
        right
        simpa using hl
      | cons a r =>
        rw [hsp] at hl
        simp only [withPytestHeader] at hl
        split at hl
        · left
          exact hl
        · rcases List.mem_cons.mp hl with h | h
          · right; exact h
          · left
            exact h
    rcases hl2 with h | h
    · obtain ⟨hn1, hn2⟩ := hno l h
      simp [List.isPrefixOf_iff_prefix, hn1, hn2]
    · subst h
      simp [List.isPrefixOf_iff_prefix, hstrip, fromPat_not_pytest m, hpy]
  rcases ensureLines_eq_or m g fns with ⟨hT, he⟩ | ⟨hF2, he⟩
  · rw [hF] at hT
    simp at hT
  · rw [he]
    obtain ⟨l0, r, heq⟩ :=
      List.exists_cons_of_ne_nil (withPytestHeader_ne_nil (splitlines g))
    rw [heq, insertIdx_one]
    simp

/-- Witness for `C4_insert_import` at a concrete input with no module
import. -/
theorem C4_insert_import_witness :
    (splitlines (ensure_imports_and_header (lit ("mod")) (lit ("print(1)")) []))[1]? =
      some (import_stmt (lit ("mod")) []) :=
  C4_insert_import (lit ("mod")) (lit ("print(1)")) []
    (by decide) (by decide) (by decide) (by decide)

/-- Counterexample to C4 as stated: in `" import mod"` no line starts
literally with `from mod import` or `import mod` (the only line starts with
a blank), yet the guard inserts nothing, because its check strips the line
first; the second line of the output is the original `" import mod"`, not
the import statement. -/
theorem C4_counterexample :
    (∀ l ∈ splitlines (lit (" import mod")),
      ¬(fromPat (lit ("mod")) <+: l) ∧ ¬(impPat (lit ("mod")) <+: l)) ∧
    (splitlines (ensure_imports_and_header (lit ("mod")) (lit (" import mod")) []))[1]? ≠
      some (import_stmt (lit ("mod")) []) :=
  ⟨by decide, by decide⟩

/-- C5.  The extractor returns exactly the signatures of the top-level
`FunctionDef` statements of the module body, in source order, with the
declared name and the declared positional-or-keyword parameter names; the
count equals the number of such statements, and statements inside a
`ClassDef` body (hence also inside function bodies, which the loop never
enters) contribute nothing. -/
theorem C5_extractor (body : List PyStmt) :
    extract_top_level_functions body = body.filterMap sigOfDef ∧
    (extract_top_level_functions body).length = body.countP isFunctionDef ∧
    (∀ n rest, extract_top_level_functions (PyStmt.classDef n body :: rest) =
      extract_top_level_functions rest) := by
  refine ⟨?_, ?_, fun n rest => rfl⟩
  · induction body with
    | nil => rfl
    | cons s rest ih =>
      cases s <;>
        simp [extract_top_level_functions, sigOfDef, List.filterMap_cons, ih]
  · induction body with
    | nil => rfl
    | cons s rest ih =>
      cases s <;>
        simp [extract_top_level_functions, isFunctionDef, List.countP_cons, ih]

/-- C10.  A top-level `async def` (an `ast.AsyncFunctionDef` node) is skipped
by the extractor, and a module body consisting only of `async def`
statements yields the empty signature list. -/
theorem C10_async_excluded (n : List Char) (args : PyArguments)
    (inner rest : List PyStmt) :
    extract_top_level_functions (PyStmt.asyncFunctionDef n args inner :: rest) =
      extract_top_level_functions rest ∧
    (∀ body : List PyStmt,
      (∀ s ∈ body, ∃ n2 a2 b2, s = PyStmt.asyncFunctionDef n2 a2 b2) →
      extract_top_level_functions body = []) := by
  refine ⟨rfl, ?_⟩
  intro body hb
  induction body with
  | nil => rfl
  | cons s r ih =>
    obtain ⟨n2, a2, b2, rfl⟩ := hb s (List.mem_cons_self _ _)
    exact ih (fun x hx => hb x (List.mem_cons_of_mem _ hx))

/-- Witness for `C10_async_excluded`: a module whose only statement is an
`async def` yields no signatures. -/
theorem C10_async_excluded_witness :
    extract_top_level_functions
      [PyStmt.asyncFunctionDef (lit ("f")) ⟨[], [⟨lit ("x")⟩], []⟩ []] = [] :=
  (C10_async_excluded (lit ("f")) ⟨[], [⟨lit ("x")⟩], []⟩ [] []).2
    [PyStmt.asyncFunctionDef (lit ("f")) ⟨[], [⟨lit ("x")⟩], []⟩ []]
    (fun _ hs => ⟨lit ("f"), ⟨[], [⟨lit ("x")⟩], []⟩, [], List.mem_singleton.mp hs⟩)

/-- C6.  When `AZURE_OPENAI_DEPLOYMENT` is unset or empty, `call_azure_llm`
returns the configuration error without consulting the model oracle at all
(the result is the same for every oracle); when it is set and non-empty, the
call is exactly one oracle invocation with temperature `0`, `max_retries`
`2`, the deployment read from the environment, and the API version falling
back to the literal `"2023-06-01-preview"` when the variable is unset. -/
theorem C6_model_client (getenv : List Char → Option (List Char))
    (invoke invoke2 : AzureChatConfig → List (List Char × List Char) →
      Except (List Char) (List Char))
    (sp hp : List Char) :
    ((getenv envDeployment = none ∨ getenv envDeployment = some []) →
      call_azure_llm getenv invoke sp hp = Except.error configErrorMsg ∧
      call_azure_llm getenv invoke sp hp = call_azure_llm getenv invoke2 sp hp) ∧
    (∀ d, getenv envDeployment = some d → d ≠ [] →
      call_azure_llm getenv invoke sp hp =
        invoke ⟨d, (getenv envApiVersion).getD defaultApiVersion, 0, 2⟩
          [(lit ("system"), sp), (lit ("human"), hp)]) := by
  constructor
  · rintro (h | h) <;> exact ⟨by simp [call_azure_llm, h], by simp [call_azure_llm, h]⟩
  · intro d hd hne
    simp [call_azure_llm, hd, List.isEmpty_iff, hne]

/-- Witness for `C6_model_client`: with an empty environment the call fails
with the configuration error; with only the deployment set, the oracle sees
the default API version. -/
theorem C6_model_client_witness :
    call_azure_llm (fun _ => none) (fun _ _ => Except.ok []) (lit ("s")) (lit ("h")) =
      Except.error configErrorMsg ∧
    call_azure_llm (fun v => if v = envDeployment then some (lit ("dep")) else none)
        (fun cfg _ => Except.ok cfg.api_version) (lit ("s")) (lit ("h")) =
      Except.ok defaultApiVersion := by
  constructor
  · exact ((C6_model_client (fun _ => none) (fun _ _ => Except.ok [])
      (fun _ _ => Except.error []) (lit ("s")) (lit ("h"))).1 (Or.inl rfl)).1
  · have h := (C6_model_client
      (fun v => if v = envDeployment then some (lit ("dep")) else none)
      (fun cfg _ => Except.ok cfg.api_version)
      (fun cfg _ => Except.ok cfg.api_version)
      (lit ("s")) (lit ("h"))).2 (lit ("dep")) (by simp) (by decide)
    rw [h]
    rfl

theorem infix_of_mem_joinSep {l : List Char} {sep : List Char}
    {parts : List (List Char)} (h : l ∈ parts) :
    List.IsInfix l (joinSep sep parts) := by
  induction parts with
  | nil => simp at h
  | cons a ps ih =>
    cases ps with
    | nil =>
      obtain rfl : l = a := by simpa using h
      exact ⟨[], [], by simp [joinSep]⟩
    | cons b ps2 =>
      rw [joinSep_cons_cons]
      rcases List.mem_cons.mp h with rfl | h2
      · exact ⟨[], sep ++ joinSep sep (b :: ps2), by simp⟩
      · exact (ih h2).trans ⟨a ++ sep, [], by simp⟩

theorem human_core_head (m : List Char) (fns : List Sig) :
    (human_core m fns).head? = some 'G' := by
  unfold human_core human_pre
  repeat refine head?_append_left _ ?_
  decide

theorem human_core_getLast (m : List Char) (fns : List Sig) :
    (human_core m fns).getLast? = some 'y' := by
  unfold human_core human_post
  exact getLast?_append_right _ (getLast?_append_right _ (by decide))

theorem build_prompts_human (m code : List Char) (fns : List Sig) :
    (build_prompts m code fns).2 = human_core m fns := by
  have hb : (build_prompts m code fns).2 = pyStrip (human_prompt_raw m fns) := rfl
  rw [hb]
  unfold human_prompt_raw pyStrip
  have h1 : List.dropWhile pyIsSpace ('\n' :: (human_core m fns ++ ['\n'])) =
      human_core m fns ++ ['\n'] := by
    rw [List.dropWhile_cons, if_pos (by decide)]
    exact dropWhile_eq_self_of_head
      (head?_append_left _ (human_core_head m fns)) (by decide)
  rw [List.cons_append, h1,
    List.rdropWhile_concat_pos pyIsSpace _ '\n' (by decide)]
  apply List.rdropWhile_eq_self_iff.mpr
  intro hl
  have h2 := human_core_getLast m fns
  rw [List.getLast?_eq_getLast _ hl] at h2
  rw [Option.some_inj.mp h2]
  decide

/-- C7.  The prompt builder is a pure function of its three arguments (its
embedding is a Lean function), its human text contains every signature
rendered as `- name(p1, p2)`, and for an empty signature list it contains
the literal placeholder `(nenhuma função top-level encontrada)`. -/
theorem C7_prompt_builder (m code : List Char) (fns : List Sig) :
    (∀ f ∈ fns, List.IsInfix (sigLine f) (build_prompts m code fns).2) ∧
    (fns = [] →
      List.IsInfix (lit ("(nenhuma função top-level encontrada)"))
        (build_prompts m code fns).2) := by
  rw [build_prompts_human]
  constructor
  · intro f hf
    have h1 : List.IsInfix (sigLine f) (funcs_list_text fns) := by
      unfold funcs_list_text
      rw [if_neg (by simp [List.isEmpty_iff, List.ne_nil_of_mem hf])]
      exact infix_of_mem_joinSep (List.mem_map_of_mem sigLine hf)
    exact h1.trans ⟨human_pre m fns, human_post m, by simp [human_core]⟩
  · intro h
    subst h
    exact ⟨human_pre m [], human_post m, by simp [human_core, funcs_list_text]⟩

/-- Witness for `C7_prompt_builder`: the rendered line `- add(a, b)` occurs
in the human prompt built for a one-signature module. -/
theorem C7_prompt_builder_witness :
    List.IsInfix (sigLine ⟨lit ("add"), [lit ("a"), lit ("b")], none⟩)
      (build_prompts (lit ("mod")) (lit ("x = 1"))
        [⟨lit ("add"), [lit ("a"), lit ("b")], none⟩]).2 :=
  (C7_prompt_builder (lit ("mod")) (lit ("x = 1"))
      [⟨lit ("add"), [lit ("a"), lit ("b")], none⟩]).1
    ⟨lit ("add"), [lit ("a"), lit ("b")], none⟩ (List.mem_singleton.mpr rfl)

/-- C8.  Each run either terminates with an error raised by a stage
(existence check, parsing, configuration or model call) and writes nothing,
or every stage succeeds and the single write is of the guarded content —
whose first line passes the `import pytest` check — to
`<parent>/test_<stem>.py`; no write happens in any error case, and the
written content is always the guard's output. -/
theorem C8_pipeline (parent stem : List Char) (w : RunWorld) :
    (∃ e, main parent stem w = Except.error e) ∨
    (∃ body generated,
      w.parse_result = Except.ok body ∧
      call_azure_llm w.getenv w.invoke
          (build_prompts stem w.module_code (extract_top_level_functions body)).1
          (build_prompts stem w.module_code (extract_top_level_functions body)).2 =
        Except.ok generated ∧
      main parent stem w =
        Except.ok (parent ++ lit ("/test_") ++ stem ++ lit (".py"),
          ensure_imports_and_header stem generated
            (extract_top_level_functions body)) ∧
      ∃ l0 r, ensureLines stem generated (extract_top_level_functions body) =
          l0 :: r ∧ pytestLine <+: pyStrip l0) := by
  cases hfe : w.file_exists with
  | false =>
    left
    exact ⟨lit ("Arquivo não encontrado"), by simp [main, hfe]⟩
  | true =>
    cases hp : w.parse_result with
    | error e =>
      left
      exact ⟨e, by simp [main, hfe, hp]⟩
    | ok body =>
      cases hc : call_azure_llm w.getenv w.invoke
          (build_prompts stem w.module_code (extract_top_level_functions body)).1
          (build_prompts stem w.module_code (extract_top_level_functions body)).2 with
      | error e =>
        left
        exact ⟨e, by simp [main, hfe, hp, hc]⟩
      | ok generated =>
        right
        exact ⟨body, generated, rfl, hc, by simp [main, hfe, hp, hc],
          ensureLines_head stem generated (extract_top_level_functions body)⟩

end Agent
